import Mathlib

/-!
Verification development for the sitemap crawl-and-match engine in
`scanner.py`.  The Python source is shallowly embedded: pure helper
functions become Lean functions over `String` / `List Char`, the
standard-library routines they call (`urllib.parse`, `str` methods)
are translated from CPython, network fetches and the external XML
parser are oracle parameters, and raising code paths are `Option`.
-/

namespace SiteCrawl

/-! ## Python string primitives -/

/-- Whitespace set of Python `str.strip` / `str.isspace`. -/
def pyIsSpace (c : Char) : Bool :=
  c == ' ' || c == '\t' || c == '\n' || (0xb ≤ c.toNat && c.toNat ≤ 0xd) ||
  (0x1c ≤ c.toNat && c.toNat ≤ 0x1f) || c.toNat == 0x85 || c.toNat == 0xa0 ||
  c.toNat == 0x1680 || (0x2000 ≤ c.toNat && c.toNat ≤ 0x200a) ||
  c.toNat == 0x2028 || c.toNat == 0x2029 || c.toNat == 0x202f ||
  c.toNat == 0x205f || c.toNat == 0x3000

/-- Python `str.strip()` (no argument): trim whitespace from both ends. -/
def pyStrip (s : String) : String :=
  ⟨(s.data.dropWhile pyIsSpace).reverse.dropWhile pyIsSpace |>.reverse⟩

/-- ASCII lower-casing of one character, as CPython does for ASCII text. -/
def charLower (c : Char) : Char :=
  if 'A' ≤ c && c ≤ 'Z' then Char.ofNat (c.toNat + 32) else c

/-- Python `str.lower()` (restricted to the ASCII case mappings). -/
def pyLower (s : String) : String := ⟨s.data.map charLower⟩

/-- Contiguous-sublist test on character lists. -/
def isInfixOfList (sub : List Char) : List Char → Bool
  | [] => sub.isEmpty
  | x :: xs => sub.isPrefixOf (x :: xs) || isInfixOfList sub xs

/-- Python `sub in s` substring test. -/
def pyIn (sub s : String) : Bool := isInfixOfList sub.data s.data

/-- Python `s.startswith(pre)`. -/
def pyStartsWith (s pre : String) : Bool := pre.data.isPrefixOf s.data

/-- Python `s.endswith(suf)`. -/
def pyEndsWith (s suf : String) : Bool := suf.data.isSuffixOf s.data

/-- Split a character list at the first occurrence of `c`:
`some (before, after)` when `c` occurs (neither part contains that `c`). -/
def splitOnceCharList (c : Char) : List Char → Option (List Char × List Char)
  | [] => none
  | x :: xs =>
    if x == c then some ([], xs)
    else match splitOnceCharList c xs with
      | none => none
      | some (l, r) => some (x :: l, r)

/-- Python `s.split(sep, 1)` for a one-character separator, as the pair of
pieces (`none` when the separator does not occur). -/
def splitOnceChar (c : Char) (s : String) : Option (String × String) :=
  (splitOnceCharList c s.data).map fun p => (⟨p.1⟩, ⟨p.2⟩)

/-- Python `s.split(sep)` for a one-character separator (keeps empty pieces). -/
def splitAllChar (c : Char) : List Char → List (List Char)
  | [] => [[]]
  | x :: xs =>
    let rest := splitAllChar c xs
    if x == c then [] :: rest
    else match rest with
      | [] => [[x]]
      | h :: t => (x :: h) :: t

/-- Python `s.replace(old, new, 1)` for a nonempty `old`:
replace the first occurrence, if any. -/
def replaceFirstList (old new : List Char) : List Char → List Char
  | [] => []
  | x :: xs =>
    if old.isPrefixOf (x :: xs) then new ++ (x :: xs).drop old.length
    else x :: replaceFirstList old new xs

/-- Python `s.replace(old, new, 1)` on strings (first occurrence only). -/
def pyReplaceFirst (s old new : String) : String :=
  ⟨replaceFirstList old.data new.data s.data⟩

/-- Line-break characters recognized by Python `str.splitlines`. -/
def pyIsLineBreak (c : Char) : Bool :=
  c == '\n' || c == '\r' || (0xb ≤ c.toNat && c.toNat ≤ 0xc) ||
  (0x1c ≤ c.toNat && c.toNat ≤ 0x1e) || c.toNat == 0x85 ||
  c.toNat == 0x2028 || c.toNat == 0x2029

/-- Python `str.splitlines` on a character list: split at line breaks
(`\r\n` counts as one break); no trailing empty line. -/
def pySplitlinesList : List Char → List (List Char)
  | [] => []
  | '\r' :: '\n' :: rest => [] :: pySplitlinesList rest
  | x :: xs =>
    if pyIsLineBreak x then [] :: pySplitlinesList xs
    else match pySplitlinesList xs with
      | [] => [[x]]
      | h :: t => (x :: h) :: t

/-- Python `str.splitlines` on strings. -/
def pySplitlines (s : String) : List String :=
  (pySplitlinesList s.data).map (fun l => ⟨l⟩)

/-! ## UTF-8 and percent-coding (CPython `urllib.parse.quote` / `unquote`) -/

/-- UTF-8 encoding of one character, as a list of byte values. -/
def utf8Bytes (c : Char) : List Nat :=
  let n := c.toNat
  if n < 0x80 then [n]
  else if n < 0x800 then [0xc0 + n / 64, 0x80 + n % 64]
  else if n < 0x10000 then [0xe0 + n / 4096, 0x80 + n / 64 % 64, 0x80 + n % 64]
  else [0xf0 + n / 262144, 0x80 + n / 4096 % 64, 0x80 + n / 64 % 64, 0x80 + n % 64]

/-- UTF-8 encoding of a character list (`str.encode("utf-8")`). -/
def utf8Encode (l : List Char) : List Nat := l.flatMap utf8Bytes

/-- Number of bytes of the UTF-8 sequence led by byte `b`
(0 for a byte that cannot start a sequence). -/
def utf8SeqLen (b : Nat) : Nat :=
  if 0xc2 ≤ b && b ≤ 0xdf then 2
  else if 0xe0 ≤ b && b ≤ 0xef then 3
  else if 0xf0 ≤ b && b ≤ 0xf4 then 4
  else 0

/-- Validity of the first continuation byte after starter `b`
(the restricted ranges exclude overlong and surrogate encodings). -/
def utf8FirstContOk (b c : Nat) : Bool :=
  if b == 0xe0 then 0xa0 ≤ c && c ≤ 0xbf
  else if b == 0xed then 0x80 ≤ c && c ≤ 0x9f
  else if b == 0xf0 then 0x90 ≤ c && c ≤ 0xbf
  else if b == 0xf4 then 0x80 ≤ c && c ≤ 0x8f
  else 0x80 ≤ c && c ≤ 0xbf

/-- Number of leading valid continuation bytes of `l` after starter `b`. -/
def utf8ContCount (b : Nat) (l : List Nat) : Nat :=
  match l with
  | [] => 0
  | c :: rest =>
    if utf8FirstContOk b c then
      1 + (rest.takeWhile (fun d => 0x80 ≤ d && d ≤ 0xbf)).length
    else 0

/-- Code point of a complete UTF-8 sequence: starter `b` plus continuations. -/
def utf8Point (b : Nat) (conts : List Nat) : Nat :=
  let lead := if b < 0xe0 then b - 0xc0 else if b < 0xf0 then b - 0xe0 else b - 0xf0
  conts.foldl (fun acc c => acc * 64 + (c - 0x80)) lead

/-- CPython `bytes.decode("utf-8", errors="replace")`: valid sequences decode,
an invalid or truncated sequence yields one U+FFFD for the bytes consumed. -/
def utf8DecodeReplace (l : List Nat) : List Char :=
  match l with
  | [] => []
  | b :: rest =>
    if b < 0x80 then Char.ofNat b :: utf8DecodeReplace rest
    else
      let need := utf8SeqLen b
      if need == 0 then Char.ofNat 0xfffd :: utf8DecodeReplace rest
      else
        let conts := utf8ContCount b (rest.take (need - 1))
        if conts == need - 1 then
          Char.ofNat (utf8Point b (rest.take (need - 1))) ::
            utf8DecodeReplace (rest.drop (need - 1))
        else Char.ofNat 0xfffd :: utf8DecodeReplace (rest.drop conts)
termination_by l.length
decreasing_by
  all_goals simp [List.length_drop]
  all_goals omega

/-- The always-safe characters of `urllib.parse.quote`
(RFC 3986 unreserved: ASCII letters, digits, `_.-~`). -/
def alwaysSafeChar (c : Char) : Bool :=
  ('A' ≤ c && c ≤ 'Z') || ('a' ≤ c && c ≤ 'z') || ('0' ≤ c && c ≤ '9') ||
  c == '_' || c == '.' || c == '-' || c == '~'

/-- Upper-case hexadecimal digit for `n < 16`. -/
def hexUpperDigit (n : Nat) : Char :=
  if n < 10 then Char.ofNat (48 + n) else Char.ofNat (55 + n)

/-- Percent-escape of one byte, `%XX` with upper-case hex. -/
def pctEncodeByte (b : Nat) : List Char :=
  ['%', hexUpperDigit (b / 16), hexUpperDigit (b % 16)]

/-- CPython `urllib.parse.quote(s, safe)`: UTF-8-encode, keep bytes that are
always safe or in the ASCII part of `safe`, percent-escape the rest. -/
def pyQuote (s safe : String) : String :=
  ⟨(utf8Encode s.data).flatMap (fun b =>
    if b < 128 && (alwaysSafeChar (Char.ofNat b) || safe.data.contains (Char.ofNat b))
    then [Char.ofNat b] else pctEncodeByte b)⟩

/-- Hexadecimal digit test (both cases), as in `urllib.parse._hexdig`. -/
def isHexDigit (c : Char) : Bool :=
  ('0' ≤ c && c ≤ '9') || ('a' ≤ c && c ≤ 'f') || ('A' ≤ c && c ≤ 'F')

/-- Value of a hexadecimal digit. -/
def hexVal (c : Char) : Nat :=
  if c ≤ '9' then c.toNat - 48 else if c ≤ 'F' then c.toNat - 55 else c.toNat - 87

/-- Tokenization step of CPython `urllib.parse.unquote`: ASCII characters and
`%XX` escapes become bytes (`Sum.inl`), non-ASCII characters pass through
(`Sum.inr`); a `%` not followed by two hex digits is a literal byte. -/
def unquoteTokens : List Char → List (Sum Nat Char)
  | [] => []
  | '%' :: a :: b :: rest =>
    if isHexDigit a && isHexDigit b then
      Sum.inl (hexVal a * 16 + hexVal b) :: unquoteTokens rest
    else Sum.inl 37 :: unquoteTokens (a :: b :: rest)
  | c :: rest =>
    (if c.toNat < 128 then Sum.inl c.toNat else Sum.inr c) :: unquoteTokens rest

/-- Decode token runs: maximal byte runs are UTF-8-decoded with replacement
(as `unquote` does per ASCII chunk), pass-through characters are kept. -/
def decodeTokens (pending : List Nat) : List (Sum Nat Char) → List Char
  | [] => utf8DecodeReplace pending.reverse
  | Sum.inl b :: rest => decodeTokens (b :: pending) rest
  | Sum.inr c :: rest => utf8DecodeReplace pending.reverse ++ c :: decodeTokens [] rest

/-- CPython `urllib.parse.unquote(s)` with the default
`encoding="utf-8", errors="replace"`. -/
def pyUnquote (s : String) : String :=
  if pyIn "%" s then ⟨decodeTokens [] (unquoteTokens s.data)⟩ else s

/-! ## CPython `urllib.parse`: urlsplit / urlparse / urljoin and friends -/

/-- Scheme characters (`urllib.parse.scheme_chars`). -/
def isSchemeChar (c : Char) : Bool :=
  c.isAlpha || c.isDigit || c == '+' || c == '-' || c == '.'

/-- Leading/trailing strip set `_WHATWG_C0_CONTROL_OR_SPACE` (0x00–0x20). -/
def isC0ControlOrSpace (c : Char) : Bool := c.toNat ≤ 0x20

/-- Removal of `_UNSAFE_URL_BYTES_TO_REMOVE` (tab, CR, LF). -/
def removeUnsafeList (l : List Char) : List Char :=
  l.filter (fun c => !(c == '\t' || c == '\r' || c == '\n'))

/-- Result of `urlsplit`: the 5-tuple of URL components. -/
structure SplitResult where
  scheme : String
  netloc : String
  path : String
  query : String
  fragment : String
deriving DecidableEq

/-- Result of `urlparse`: the 6-tuple of URL components. -/
structure ParseResult where
  scheme : String
  netloc : String
  path : String
  params : String
  query : String
  fragment : String
deriving DecidableEq

/-- CPython `urllib.parse.urlsplit(url, scheme)` (with `allow_fragments=True`,
as in every call site of `scanner.py`).  `none` models the `ValueError`
raised for a netloc with mismatched brackets.  The full bracketed-host IP
validation of CPython ≥ 3.11 (`_check_bracketed_host`) and the NFKC netloc
check (`_checknetloc`), both of which only reject exotic host spellings, are
not modelled. -/
def urlsplitE (url0 scheme0 : String) : Option SplitResult :=
  let url1 := removeUnsafeList (url0.data.dropWhile isC0ControlOrSpace)
  let ds := removeUnsafeList
    ((scheme0.data.dropWhile isC0ControlOrSpace).reverse.dropWhile
      isC0ControlOrSpace).reverse
  let schemeUrl : List Char × List Char :=
    match splitOnceCharList ':' url1 with
    | some (pre, after) =>
      if pre ≠ [] && (pre.headD ' ').isAlpha && pre.all isSchemeChar then
        (pre.map charLower, after)
      else (ds, url1)
    | none => (ds, url1)
  let sch := schemeUrl.1
  let rest := schemeUrl.2
  let netlocRest : List Char × List Char :=
    if ['/', '/'].isPrefixOf rest then
      let t := rest.drop 2
      let nl := t.takeWhile (fun c => !(c == '/' || c == '?' || c == '#'))
      (nl, t.drop nl.length)
    else ([], rest)
  let netloc := netlocRest.1
  let rest2 := netlocRest.2
  if (netloc.contains '[' && !netloc.contains ']') ||
     (netloc.contains ']' && !netloc.contains '[') then none
  else
    let pathFrag : List Char × List Char :=
      match splitOnceCharList '#' rest2 with
      | some (a, b) => (a, b)
      | none => (rest2, [])
    let pathQuery : List Char × List Char :=
      match splitOnceCharList '?' pathFrag.1 with
      | some (a, b) => (a, b)
      | none => (pathFrag.1, [])
    some ⟨⟨sch⟩, ⟨netloc⟩, ⟨pathQuery.1⟩, ⟨pathQuery.2⟩, ⟨pathFrag.2⟩⟩

/-- Schemes that use a network location (`urllib.parse.uses_netloc`). -/
def uses_netloc : List String :=
  ["", "ftp", "http", "gopher", "nntp", "telnet", "imap", "wais", "file",
   "mms", "https", "shttp", "snews", "prospero", "rtsp", "rtspu", "rsync",
   "svn", "svn+ssh", "sftp", "nfs", "git", "git+ssh", "ws", "wss"]

/-- Schemes that allow relative joining (`urllib.parse.uses_relative`). -/
def uses_relative : List String :=
  ["", "ftp", "http", "gopher", "nntp", "imap", "wais", "file", "https",
   "shttp", "mms", "prospero", "rtsp", "rtspu", "sftp", "svn", "svn+ssh",
   "ws", "wss"]

/-- CPython `urllib.parse.urlunsplit`. -/
def urlunsplit (p : SplitResult) : String :=
  let u1 :=
    if p.netloc != "" ||
       (p.scheme != "" && uses_netloc.contains p.scheme &&
        !pyStartsWith p.path "//") then
      let u := if p.path != "" && !pyStartsWith p.path "/"
               then "/" ++ p.path else p.path
      "//" ++ p.netloc ++ u
    else p.path
  let u2 := if p.scheme != "" then p.scheme ++ ":" ++ u1 else u1
  let u3 := if p.query != "" then u2 ++ "?" ++ p.query else u2
  if p.fragment != "" then u3 ++ "#" ++ p.fragment else u3

/-- Schemes that use parameters (`urllib.parse.uses_params`). -/
def uses_params : List String :=
  ["", "ftp", "hdl", "prospero", "http", "imap", "https", "shttp", "rtsp",
   "rtspu", "sip", "sips", "mms", "sftp", "tel"]

/-- Index just past the last occurrence of `c` in `l` (0 when absent):
the start position CPython's `url.find(';', url.rfind('/'))` searches from
is handled by dropping this prefix. -/
def afterLastIdx (c : Char) (l : List Char) : Nat :=
  l.length - (l.reverse.takeWhile (fun d => !(d == c))).length

/-- CPython `urllib.parse._splitparams`. -/
def splitParams (url : List Char) : List Char × List Char :=
  if url.contains '/' then
    let start := afterLastIdx '/' url
    match splitOnceCharList ';' (url.drop start) with
    | none => (url, [])
    | some (a, b) => (url.take start ++ a, b)
  else
    match splitOnceCharList ';' url with
    | none => (url, [])
    | some (a, b) => (a, b)

/-- CPython `urllib.parse.urlparse(url, scheme)` (with `allow_fragments=True`). -/
def urlparseE (url scheme0 : String) : Option ParseResult :=
  match urlsplitE url scheme0 with
  | none => none
  | some p =>
    if uses_params.contains p.scheme && p.path.data.contains ';' then
      let pr := splitParams p.path.data
      some ⟨p.scheme, p.netloc, ⟨pr.1⟩, ⟨pr.2⟩, p.query, p.fragment⟩
    else some ⟨p.scheme, p.netloc, p.path, "", p.query, p.fragment⟩

/-- CPython `urllib.parse.urlunparse`. -/
def urlunparse (p : ParseResult) : String :=
  let u := if p.params != "" then p.path ++ ";" ++ p.params else p.path
  urlunsplit ⟨p.scheme, p.netloc, u, p.query, p.fragment⟩

/-- CPython `urllib.parse.urldefrag`: `some (defragmented, fragment)`,
`none` when the underlying parse raises. -/
def urldefragE (url : String) : Option (String × String) :=
  if pyIn "#" url then
    match urlparseE url "" with
    | none => none
    | some p => some (urlunparse {p with fragment := ""}, p.fragment)
  else some (url, "")

/-- The `segments[1:-1] = filter(None, segments[1:-1])` step of `urljoin`:
drop empty segments, keeping the first and last elements. -/
def midFilterSegs (l : List (List Char)) : List (List Char) :=
  match l with
  | [] => []
  | [x] => [x]
  | x :: rest =>
    x :: ((rest.dropLast.filter (fun s => !s.isEmpty)) ++ [rest.getLastD []])

/-- The dot-segment resolution loop of `urljoin` (`..` pops when possible,
`.` is skipped, anything else is appended). -/
def resolveSegs (segs : List (List Char)) : List (List Char) :=
  segs.foldl (fun acc seg =>
    if seg == ['.', '.'] then acc.dropLast
    else if seg == ['.'] then acc
    else acc ++ [seg]) []

/-- CPython `urllib.parse.urljoin(base, url)` (`allow_fragments=True`);
`none` models a `ValueError` from the underlying parses. -/
def urljoinE (base url : String) : Option String :=
  if base == "" then some url
  else if url == "" then some base
  else match urlparseE base "" with
  | none => none
  | some bp =>
    match urlparseE url bp.scheme with
    | none => none
    | some up =>
      if up.scheme != bp.scheme || !uses_relative.contains up.scheme then
        some url
      else if uses_netloc.contains up.scheme && up.netloc != "" then
        some (urlunparse up)
      else
        let netloc := if uses_netloc.contains up.scheme then bp.netloc
                      else up.netloc
        if up.path == "" && up.params == "" then
          let q := if up.query == "" then bp.query else up.query
          some (urlunparse ⟨up.scheme, netloc, bp.path, bp.params, q,
                            up.fragment⟩)
        else
          let baseParts0 := splitAllChar '/' bp.path.data
          let baseParts := if baseParts0.getLastD [] ≠ [] then
              baseParts0.dropLast else baseParts0
          let segments :=
            if pyStartsWith up.path "/" then splitAllChar '/' up.path.data
            else midFilterSegs (baseParts ++ splitAllChar '/' up.path.data)
          let resolved0 := resolveSegs segments
          let resolved :=
            if segments.getLastD [] == ['.'] ||
               segments.getLastD [] == ['.', '.']
            then resolved0 ++ [([] : List Char)] else resolved0
          let joined : List Char := List.intercalate ['/'] resolved
          some (urlunparse ⟨up.scheme, netloc,
                (if joined == [] then "/" else ⟨joined⟩),
                up.params, up.query, up.fragment⟩)

/-- Keys of CPython `urllib.parse.parse_qs(qs)` with default arguments
(`keep_blank_values=False`, separator `&`): pairs without `=` or with an
empty value are skipped; `+` becomes space and the name is unquoted. -/
def parseQsKeys (qs : String) : List String :=
  if qs == "" then []
  else (splitAllChar '&' qs.data).foldr (fun nv acc =>
    if nv == [] then acc
    else match splitOnceCharList '=' nv with
      | none => acc
      | some (n, v) =>
        if v == [] then acc
        else pyUnquote ⟨n.map (fun c => if c == '+' then ' ' else c)⟩ :: acc) []

/-! ## `scanner.py`: configuration constants -/

def DOMAINS : List String := ["example.com"]

def SCHEMES : List String := ["https"]

def MAX_PAGES : Nat := 20000

def CONCURRENCY : Nat := 4

def USER_AGENT : String := "URL-Scanner/1.0 (+contact: your@email.com)"

def MAX_MATCH_PAGES_PER_QUERY : Nat := 100

def SCAN_HTML_BODY_TOO : Bool := true

def BINARY_EXTS : List String :=
  [".jpg", ".jpeg", ".png", ".gif", ".webp", ".svg", ".pdf", ".zip", ".rar",
   ".7z", ".mp4", ".mp3", ".mov", ".avi", ".mkv", ".woff", ".woff2", ".ttf",
   ".eot", ".otf", ".ico"]

def SITEMAP_CAP : Nat := 5000

/-! ## `scanner.py`: helper predicates -/

/-- `scanner.same_domain(url, domains)`: host equals a domain or is a
subdomain of it; any exception (a failing parse) yields `False`. -/
def same_domain (url : String) (domains : List String) : Bool :=
  match urlparseE url "" with
  | none => false
  | some p =>
    let host := pyLower p.netloc
    domains.any (fun d => host == d || pyEndsWith host ("." ++ d))

/-- `scanner.is_binary_url(url)`: path extension in `BINARY_EXTS`.
(The `none` branch models the unparseable case; every call site is guarded
by `same_domain`, which already parsed the URL successfully.) -/
def is_binary_url (url : String) : Bool :=
  match urlparseE url "" with
  | none => false
  | some p => BINARY_EXTS.any (fun ext => pyEndsWith (pyLower p.path) ext)

/-- `scanner.is_sitemap_like(u)`: `.xml` / `.xml.gz` extension, the substring
"sitemap" anywhere, or a query key containing "sitemap"; a raising parse in
the query branch is caught and yields `False`. -/
def is_sitemap_like (u : String) : Bool :=
  let low := pyLower u
  if pyEndsWith low ".xml" || pyEndsWith low ".xml.gz" then true
  else if pyIn "sitemap" low then true
  else match urlparseE u "" with
    | none => false
    | some p => (parseQsKeys p.query).any (fun k => pyIn "sitemap" (pyLower k))

/-! ## `scanner.py`: normalize_variants

`html.unescape` is an external collaborator here, passed as the parameter
`unescape`; CPython's implementation returns its argument unchanged whenever
the argument contains no `&` (theorems below only ever rely on that fact). -/

/-- Safe set used by `normalize_variants` for `urllib.parse.quote`. -/
def quoteSafe : String := ":/?#[]@!$&'()*+,;=%"

/-- `scanner.normalize_variants(target)`: the set of match variants.
`none` models the uncaught exception when `urldefrag` raises; the
`urlparse` step sits inside `with suppress(Exception)` and so degrades to
"skip the scheme/www variants". -/
def normalize_variants (unescape : String → String) (target : String) :
    Option (Finset String) :=
  let s := pyStrip target
  if s == "" then some ∅
  else
    let v1 : Finset String := {s}
    let s_unesc := unescape s
    let v2 := insert s_unesc v1
    match urldefragE s_unesc with
    | none => none
    | some pr =>
      let s_defrag := pr.1
      let v3 := insert s_defrag v2
      let v4 :=
        match urlparseE s_defrag "" with
        | none => v3
        | some p =>
          if p.netloc != "" then
            let a := if p.scheme != "" then
                insert (pyReplaceFirst s_defrag (p.scheme ++ "://") "") v3
              else v3
            if pyStartsWith p.netloc "www." then
              let no_www := pyReplaceFirst s_defrag p.netloc
                ⟨p.netloc.data.drop 4⟩
              let b := insert no_www a
              if p.scheme != "" then
                insert (pyReplaceFirst no_www (p.scheme ++ "://") "") b
              else b
            else a
          else v3
      let withEnc := v4 ∪ v4.image (fun v => pyQuote v quoteSafe)
      some (withEnc.filter (fun v => 6 ≤ v.length))

/-! ## `scanner.py`: Matcher

`Matcher.find_in` has two modes.  The fallback mode is a pattern-by-pattern
Python `in` scan.  The accelerated mode iterates a pyahocorasick automaton
built by `add_word` over every pattern: `add_word` inserts only nonempty
keys (an empty key is ignored and returns `False`), and `iter` reports an
automaton word exactly at the end positions of its occurrences in the text,
so the reported set is the set of nonempty patterns occurring in the text. -/

/-- `Matcher.find_in` in fallback mode (`use_aho == False`). -/
def Matcher_find_in_fallback (patterns_list : List String) (text : String) :
    Finset String :=
  if text == "" then ∅
  else (patterns_list.filter (fun p => pyIn p text)).toFinset

/-- `Matcher.find_in` in accelerated mode (`use_aho == True`): the patterns
reported by iterating the Aho-Corasick automaton of the pattern list. -/
def Matcher_find_in_aho (patterns_list : List String) (text : String) :
    Finset String :=
  if text == "" then ∅
  else (patterns_list.filter (fun p => p != "" && pyIn p text)).toFinset

/-! ## `scanner.py`: parse_sitemap_xml

`xml.etree.ElementTree` is an external collaborator: a parsed document is an
`XmlElem` tree (tag, text, children), and `ET.fromstring` is the oracle
parameter `fromstring`, `none` standing for a `ParseError`. -/

/-- A parsed XML element: tag (possibly namespaced as in ElementTree, i.e.
prefixed with a brace-wrapped URI), text content, child elements. -/
inductive XmlElem where
  | mk (tag : String) (text : Option String) (children : List XmlElem)

def XmlElem.tag : XmlElem → String
  | XmlElem.mk t _ _ => t

def XmlElem.textOf : XmlElem → Option String
  | XmlElem.mk _ x _ => x

def XmlElem.children : XmlElem → List XmlElem
  | XmlElem.mk _ _ c => c

mutual

/-- The element together with all its proper descendants
(the `descendant-or-self` axis of the `.//` step). -/
def XmlElem.selfAndDescendants : XmlElem → List XmlElem
  | XmlElem.mk t x cs => XmlElem.mk t x cs :: selfAndDescendantsList cs

/-- Concatenated `selfAndDescendants` of a list of elements. -/
def selfAndDescendantsList : List XmlElem → List XmlElem
  | [] => []
  | c :: cs => c.selfAndDescendants ++ selfAndDescendantsList cs

end

/-- ElementTree match of an `\x7b*\x7d`-prefixed pattern tag: the element tag
equals `name` or ends with `name` preceded by a closing brace. -/
def matchesStarTag (tag name : String) : Bool :=
  tag == name || pyEndsWith tag ⟨Char.ofNat 125 :: name.data⟩

/-- `scanner._findall_any(elem, p1 ++ "/" ++ p2)`: all `p2` children of `p1`
elements that are descendants of `elem`, namespaces ignored. -/
def findallAny (root : XmlElem) (p1 p2 : String) : List XmlElem :=
  (root.selfAndDescendants.flatMap
      (fun e => e.children.filter (fun c => matchesStarTag c.tag p1))).flatMap
    (fun e => e.children.filter (fun c => matchesStarTag c.tag p2))

/-- The root-tag namespace strip of `parse_sitemap_xml`
(`tag.split(sep, 1)[1]` after a closing brace, when one occurs). -/
def rootLocalTag (tag : String) : String :=
  match splitOnceCharList (Char.ofNat 125) tag.data with
  | some pr => ⟨pr.2⟩
  | none => tag

/-- One step of the `urlset` loop of `parse_sitemap_xml`: a nonempty `loc`
text is stripped and routed by `is_sitemap_like` into the (sitemap URLs,
page URLs) accumulator. -/
def classifyStep (acc : List String × List String) (loc : XmlElem) :
    List String × List String :=
  match loc.textOf with
  | none => acc
  | some t =>
    if t == "" then acc
    else
      let url := pyStrip t
      if is_sitemap_like url then (acc.1 ++ [url], acc.2)
      else (acc.1, acc.2 ++ [url])

/-- The `urlset` loop of `parse_sitemap_xml`, preserving document order. -/
def classifyUrlsetLocs (locs : List XmlElem) : List String × List String :=
  locs.foldl classifyStep ([], [])

/-- The `sitemapindex` loop of `parse_sitemap_xml`: stripped nonempty
`sitemap/loc` texts, in order. -/
def indexLocs (locs : List XmlElem) : List String :=
  locs.foldr (fun loc acc =>
    match loc.textOf with
    | none => acc
    | some t => if t == "" then acc else pyStrip t :: acc) []

/-- `scanner.parse_sitemap_xml(xml_text)`: `(sitemap_urls, page_urls)`. -/
def parse_sitemap_xml (fromstring : String → Option XmlElem)
    (xml_text : String) : List String × List String :=
  if pyStrip xml_text == "" then ([], [])
  else match fromstring xml_text with
    | none => ([], [])
    | some root =>
      if pyLower (rootLocalTag root.tag) == "sitemapindex" then
        (indexLocs (findallAny root "sitemap" "loc"), [])
      else classifyUrlsetLocs (findallAny root "url" "loc")

/-! ## `scanner.py`: sitemap discovery

Network I/O is an oracle `fetch : url ↦ (status, decoded text)`, standing
for `fetch_text_bytes` followed by `decode_text` (a non-200 response or a
raised exception appears as a status other than 200 or an empty text). -/

/-- `scanner.possible_base_urls(domain)`, with the global `SCHEMES`
passed explicitly. -/
def possible_base_urls (schemes : List String) (domain : String) :
    List String :=
  schemes.map (fun scheme => scheme ++ "://" ++ domain)

/-- One robots.txt line of `discover_sitemap_urls`: a line whose lowercased
text starts with `sitemap:` contributes its stripped remainder (if
nonempty). -/
def sitemapLineAdd (s : Finset String) (line : String) : Finset String :=
  if pyStartsWith (pyLower line) "sitemap:" then
    match splitOnceChar ':' line with
    | some pr =>
      let sm := pyStrip pr.2
      if sm != "" then insert sm s else s
    | none => s
  else s

/-- One base URL (scheme/domain pair) of `discover_sitemap_urls`: fetch its
robots.txt, add the `Sitemap:` lines of a nonempty 200 response, then add
the default `/sitemap.xml`; `none` models an uncaught `ValueError` escaping
from `urljoin`. -/
def discoverBaseStep (fetch : String → Nat × String)
    (acc : Option (Finset String)) (base : String) : Option (Finset String) :=
  match acc with
  | none => none
  | some su =>
    match urljoinE base "/robots.txt" with
    | none => none
    | some robots_url =>
      let st := fetch robots_url
      let su1 :=
        if st.1 == 200 && st.2 != "" then
          (pySplitlines st.2).foldl sitemapLineAdd su
        else su
      match urljoinE base "/sitemap.xml" with
      | none => none
      | some default_url => some (insert default_url su1)

/-- `scanner.discover_sitemap_urls(session, domain)`: `Sitemap:` lines of
each scheme's robots.txt plus the default `/sitemap.xml` per scheme. -/
def discover_sitemap_urls (fetch : String → Nat × String)
    (schemes : List String) (domain : String) : Option (Finset String) :=
  (possible_base_urls schemes domain).foldl (discoverBaseStep fetch)
    (some ∅)

/-! ## `scanner.py`: sitemap traversal (`gather_pages_from_sitemaps`) -/

/-- State of the traversal worklist loop. -/
structure TravState where
  to_process : List String
  seen_sitemaps : Finset String
  processed_count : Nat
  pages : Finset String
  fetched : List String

/-- The defragmented form stored by the traversal (`urldefrag(u)[0]`).
(The `none` branch is unreachable at the call site, which is guarded by a
successful `same_domain` parse of the same URL.) -/
def defragOrSelf (u : String) : String :=
  match urldefragE u with
  | some pr => pr.1
  | none => u

/-- The page-collection loop of `gather_pages_from_sitemaps`: in-scope,
non-binary URLs are defragmented and added, breaking once the page cap is
reached. -/
def collectPages (maxPages : Nat) (domains : List String) :
    List String → Finset String → Finset String
  | [], pages => pages
  | u :: rest, pages =>
    if same_domain u domains && !is_binary_url u then
      let pages1 := insert (defragOrSelf u) pages
      if maxPages ≤ pages1.card then pages1
      else collectPages maxPages domains rest pages1
    else collectPages maxPages domains rest pages

/-- The `while` loop of `gather_pages_from_sitemaps`: pop the last worklist
entry, skip if seen, otherwise mark seen, count it, fetch it (logged in
`fetched`), and on an XML-looking 200 body parse it, enqueue unseen nested
sitemaps and collect page URLs.  The loop guard re-checks the worklist, the
page cap and the document cap. -/
def gatherLoop (fetch : String → Nat × String)
    (fromstring : String → Option XmlElem) (domains : List String)
    (maxPages sitemapCap : Nat) (st : TravState) : TravState :=
  if hg : st.to_process ≠ [] ∧ st.pages.card < maxPages ∧
      st.processed_count < sitemapCap then
    let sm_url := st.to_process.getLast hg.1
    let rest := st.to_process.dropLast
    if sm_url ∈ st.seen_sitemaps then
      gatherLoop fetch fromstring domains maxPages sitemapCap
        { st with to_process := rest }
    else
      let seen1 := insert sm_url st.seen_sitemaps
      let fetched1 := st.fetched ++ [sm_url]
      let res := fetch sm_url
      if res.1 != 200 || res.2 == "" then
        gatherLoop fetch fromstring domains maxPages sitemapCap
          ⟨rest, seen1, st.processed_count + 1, st.pages, fetched1⟩
      else if !pyStartsWith (pyStrip res.2) "<" then
        gatherLoop fetch fromstring domains maxPages sitemapCap
          ⟨rest, seen1, st.processed_count + 1, st.pages, fetched1⟩
      else
        let pr := parse_sitemap_xml fromstring res.2
        let worklist := rest ++ pr.1.filter (fun u => u ∉ seen1)
        let pages1 := collectPages maxPages domains pr.2 st.pages
        gatherLoop fetch fromstring domains maxPages sitemapCap
          ⟨worklist, seen1, st.processed_count + 1, pages1, fetched1⟩
  else st
termination_by (sitemapCap - st.processed_count, st.to_process.length)
decreasing_by
  all_goals (try simp_wf)
  all_goals
    first
    | (apply Prod.Lex.left
       omega)
    | (apply Prod.Lex.right
       have hlen : 0 < st.to_process.length := List.length_pos.mpr hg.1
       omega)

/-- `scanner.gather_pages_from_sitemaps`, from a set of initial candidate
sitemap URLs (the traversal state is returned whole: collected pages,
visited set, processed count and the fetch log). -/
def gather_pages_from_sitemaps (fetch : String → Nat × String)
    (fromstring : String → Option XmlElem) (domains : List String)
    (maxPages sitemapCap : Nat) (candidates : List String) : TravState :=
  gatherLoop fetch fromstring domains maxPages sitemapCap
    ⟨candidates, ∅, 0, ∅, []⟩

/-! ## `scanner.py`: SiteScanner robots handling

`urllib.robotparser.RobotFileParser` state, as far as `can_fetch` consults
it: the `disallow_all` / `allow_all` flags, whether a ruleset was ever
parsed (`last_checked`, which `parse` sets via `modified()` and a raising
`read()` leaves at 0), and the entry-matching tail of `can_fetch`
(CPython's per-user-agent rule scan), abstracted as `entriesVerdict`
since it is consulted only after a ruleset was actually parsed. -/

structure RobotFileParser where
  disallow_all : Bool
  allow_all : Bool
  last_checked : Bool
  entriesVerdict : String → String → Bool

/-- CPython `RobotFileParser.can_fetch`: the three early gates, then the
entry scan. -/
def can_fetch (rp : RobotFileParser) (useragent url : String) : Bool :=
  if rp.disallow_all then false
  else if rp.allow_all then true
  else if !rp.last_checked then false
  else rp.entriesVerdict useragent url

/-- The parser state left behind by `SiteScanner.init` when `rp.read()`
raised and the exception was suppressed: all fields still at their
`__init__` defaults. -/
def failedLoadParser (v : String → String → Bool) : RobotFileParser :=
  ⟨false, false, false, v⟩

/-- `SiteScanner.allowed(url)`: domain-scope filter, binary filter, then the
per-domain robots ruleset; any exception inside the `try` falls through to
`True`. -/
def allowed (domains : List String)
    (rp_by_domain : String → Option RobotFileParser) (url : String) : Bool :=
  if !same_domain url domains then false
  else if is_binary_url url then false
  else
    match urlparseE url "" with
    | none => true
    | some p =>
      let host := pyLower p.netloc
      match domains.find? (fun d => host == d || pyEndsWith host ("." ++ d)) with
      | none => true
      | some dom =>
        if dom == "" then true
        else match rp_by_domain dom with
          | none => true
          | some rp => can_fetch rp USER_AGENT url

/-! ## `scanner.py`: SiteScanner.scan_page match accumulation -/

/-- The match-recording loop at the end of `SiteScanner.scan_page`: each
found pattern gains the page URL unless its stored set has reached
`MAX_MATCH_PAGES_PER_QUERY`. -/
def scan_page_update (found : Finset String) (url : String)
    (matchesMap : String → Finset String) : String → Finset String :=
  fun pat =>
    if pat ∈ found then
      if (matchesMap pat).card < MAX_MATCH_PAGES_PER_QUERY then
        insert url (matchesMap pat)
      else matchesMap pat
    else matchesMap pat

/-- The initial `SiteScanner.matches` mapping (`set()` per pattern). -/
def init_matches : String → Finset String := fun _ => ∅

/-- Phase 2 as a sequence of scan events (found patterns of a page's blob,
page URL), folded through `scan_page_update` in completion order. -/
def run_scans (events : List (Finset String × String))
    (init : String → Finset String) : String → Finset String :=
  events.foldl (fun m e => scan_page_update e.1 e.2 m) init

/-! ## `scanner.py`: write_results -/

/-- One data row of the output CSV: queried input, `bool(page_list)`,
`len(page_list)`, then the page list padded to the cap with empty cells. -/
structure ResultRow where
  queried_url : String
  found : Bool
  match_count : Nat
  match_pages : List String
deriving DecidableEq

/-- The row `write_results` emits for one input `u`: union the match sets of
all of `u`'s variants, sort, truncate to the cap. -/
def result_row (unescape : String → String)
    (matchesMap : String → Finset String) (u : String) : Option ResultRow :=
  match normalize_variants unescape u with
  | none => none
  | some vars =>
    let pages := vars.biUnion matchesMap
    let page_list := (pages.sort (· ≤ ·)).take MAX_MATCH_PAGES_PER_QUERY
    some ⟨u, page_list != [], page_list.length,
      page_list ++ List.replicate (MAX_MATCH_PAGES_PER_QUERY -
        page_list.length) ""⟩

/-- `scanner.write_results(output_csv, inputs, matches)`: the list of data
rows written after the header, one per input, in input order (`none` models
an exception escaping from `normalize_variants`). -/
def write_results (unescape : String → String) (inputs : List String)
    (matchesMap : String → Finset String) : Option (List ResultRow) :=
  match inputs with
  | [] => some []
  | u :: rest =>
    match result_row unescape matchesMap u with
    | none => none
    | some row =>
      match write_results unescape rest matchesMap with
      | none => none
      | some rows => some (row :: rows)

/-! ## Helper lemmas -/

theorem pyStrip_of_all_space (s : String) (h : ∀ c ∈ s.data, pyIsSpace c) :
    pyStrip s = "" := by
  unfold pyStrip
  have h1 : s.data.dropWhile pyIsSpace = [] :=
    List.dropWhile_eq_nil_iff.mpr h
  rw [h1]
  rfl

theorem isPrefixOf_iff_exists (sub l : List Char) :
    sub.isPrefixOf l = true ↔ ∃ post, l = sub ++ post := by
  induction sub generalizing l with
  | nil => simp [List.isPrefixOf]
  | cons a as ih =>
    cases l with
    | nil => simp [List.isPrefixOf]
    | cons x xs =>
      simp only [List.isPrefixOf, Bool.and_eq_true, beq_iff_eq, ih,
        List.cons_append]
      constructor
      · rintro ⟨rfl, post, rfl⟩
        exact ⟨post, rfl⟩
      · rintro ⟨post, h⟩
        injection h with h1 h2
        exact ⟨h1.symm, post, h2⟩

theorem isInfixOfList_iff (sub l : List Char) :
    isInfixOfList sub l = true ↔ ∃ pre post, l = pre ++ sub ++ post := by
  induction l with
  | nil =>
    simp only [isInfixOfList, List.isEmpty_iff]
    constructor
    · rintro rfl
      exact ⟨[], [], rfl⟩
    · rintro ⟨pre, post, h⟩
      rcases List.append_eq_nil.mp (List.append_eq_nil.mp h.symm).1 with ⟨-, h2⟩
      exact h2
  | cons x xs ih =>
    simp only [isInfixOfList, Bool.or_eq_true, isPrefixOf_iff_exists, ih]
    constructor
    · rintro (⟨post, h⟩ | ⟨pre, post, h⟩)
      · exact ⟨[], post, by simpa using h⟩
      · exact ⟨x :: pre, post, by simp [h]⟩
    · rintro ⟨pre, post, h⟩
      cases pre with
      | nil => exact Or.inl ⟨post, by simpa using h⟩
      | cons y pre' =>
        simp only [List.cons_append, List.append_assoc] at h
        injection h with h1 h2
        exact Or.inr ⟨pre', post, by simpa [List.append_assoc] using h2⟩

theorem pyIn_iff (sub s : String) :
    pyIn sub s = true ↔ ∃ pre post, s.data = pre ++ sub.data ++ post :=
  isInfixOfList_iff sub.data s.data

/-! ## Claim C10 -/

/-- Claim C10: for every input string that is empty or consists only of
whitespace, `normalize_variants` returns the empty set (the strip makes the
early-return branch fire), for any `html.unescape` collaborator. -/
theorem C10_empty_whitespace_no_variants (unescape : String → String)
    (target : String) (h : ∀ c ∈ target.data, pyIsSpace c) :
    normalize_variants unescape target = some ∅ := by
  unfold normalize_variants
  rw [pyStrip_of_all_space target h]
  rfl

/-- Witness for C10 at a concrete whitespace-only input. -/
theorem C10_witness :
    normalize_variants id "  \t " = some ∅ :=
  C10_empty_whitespace_no_variants id "  \t " (by decide)

/-! ## Claim C9 -/

theorem run_scans_card_le (events : List (Finset String × String))
    (m : String → Finset String)
    (h : ∀ q, (m q).card ≤ MAX_MATCH_PAGES_PER_QUERY) :
    ∀ q, ((run_scans events m) q).card ≤ MAX_MATCH_PAGES_PER_QUERY := by
  induction events generalizing m with
  | nil => exact h
  | cons e rest ih =>
    show ∀ q, ((run_scans rest (scan_page_update e.1 e.2 m)) q).card ≤ _
    apply ih
    intro q
    unfold scan_page_update
    by_cases hq : q ∈ e.1
    · simp only [hq, if_true]
      by_cases hc : (m q).card < MAX_MATCH_PAGES_PER_QUERY
      · simp only [hc, if_true]
        have := Finset.card_insert_le e.2 (m q)
        omega
      · simp only [hc, if_false]
        exact h q
    · simp only [hq, if_false]
      exact h q

/-- Claim C9: along any sequence of page-scan events, no pattern's stored
match set ever exceeds `MAX_MATCH_PAGES_PER_QUERY`; and once a pattern's
set has reached the cap, a further scan event leaves it unchanged (the
match is silently dropped). -/
theorem C9_per_pattern_cap (events : List (Finset String × String))
    (p : String) :
    ((run_scans events init_matches) p).card ≤ MAX_MATCH_PAGES_PER_QUERY ∧
    (∀ (m : String → Finset String) (found : Finset String) (url : String),
      MAX_MATCH_PAGES_PER_QUERY ≤ (m p).card →
      scan_page_update found url m p = m p) := by
  constructor
  · exact run_scans_card_le events init_matches
      (fun q => by simp [init_matches]) p
  · intro m found url hcap
    unfold scan_page_update
    by_cases hp : p ∈ found
    · simp only [hp, if_true]
      have : ¬ (m p).card < MAX_MATCH_PAGES_PER_QUERY := by omega
      simp [this]
    · simp [hp]

set_option maxRecDepth 4000 in
/-- Witness for C9: a concrete scan event against a pattern map already
holding `MAX_MATCH_PAGES_PER_QUERY` pages is dropped, and a one-event run
stays within the cap. -/
theorem C9_witness :
    ((run_scans [({"pattern"}, "url")] init_matches) "pattern").card ≤
      MAX_MATCH_PAGES_PER_QUERY ∧
    scan_page_update {"pattern"} "url2"
      (fun _ => ((List.range 100).map (fun i => "p" ++ toString i)).toFinset)
      "pattern" =
      (fun _ => ((List.range 100).map (fun i => "p" ++ toString i)).toFinset)
      "pattern" :=
  ⟨(C9_per_pattern_cap [({"pattern"}, "url")] "pattern").1,
   (C9_per_pattern_cap [] "pattern").2
     (fun _ => ((List.range 100).map (fun i => "p" ++ toString i)).toFinset)
     {"pattern"} "url2" (by decide)⟩

/-! ## Claim C2 -/

/-- Counterexample to C2 as stated: for the pattern set containing the empty
string, the accelerated mode (whose automaton holds only the nonempty
patterns, since `pyahocorasick`'s `add_word` ignores an empty key and `iter`
reports only occurrences of automaton words) differs from the fallback
substring scan, which reports the empty pattern for every nonempty text. -/
theorem C2_counterexample :
    Matcher_find_in_aho ["", "abcdef"] "abcdef" ≠
      Matcher_find_in_fallback ["", "abcdef"] "abcdef" ∧
    "" ∈ Matcher_find_in_fallback ["", "abcdef"] "abcdef" ∧
    "" ∉ Matcher_find_in_aho ["", "abcdef"] "abcdef" ∧
    "abcdef" ∈ Matcher_find_in_aho ["", "abcdef"] "abcdef" := by
  refine ⟨?_, by decide, by decide, by decide⟩
  decide

/-- Claim C2, amended: for every pattern set NOT containing the empty
string and every text, the accelerated mode and the fallback mode return
the same set, namely exactly those patterns occurring as substrings of the
text (in particular when patterns are substrings of one another). -/
theorem C2_modes_equivalent (P : List String) (t : String) (h : "" ∉ P) :
    Matcher_find_in_aho P t = Matcher_find_in_fallback P t ∧
    (∀ p : String, p ∈ Matcher_find_in_fallback P t ↔
      p ∈ P ∧ ∃ pre post, t.data = pre ++ p.data ++ post) := by
  constructor
  · unfold Matcher_find_in_aho Matcher_find_in_fallback
    by_cases ht : t = ""
    · simp [ht]
    · have ht' : (t == "") = false := by simpa using ht
      simp only [ht', Bool.false_eq_true, if_false]
      congr 1
      apply List.filter_congr
      intro p hp
      have hne : p ≠ "" := fun e => h (e ▸ hp)
      have hp' : (p != "") = true := by simpa using hne
      simp [hp']
  · intro p
    unfold Matcher_find_in_fallback
    by_cases ht : t = ""
    · subst ht
      simp only [if_pos rfl]
      constructor
      · intro hmem
        exact absurd hmem (Finset.not_mem_empty p)
      · rintro ⟨hp, pre, post, heq⟩
        have hnil : p.data = [] :=
          (List.append_eq_nil.mp (List.append_eq_nil.mp heq.symm).1).2
        have : p = "" := by
          cases p with
          | mk l => cases hnil; rfl
        exact absurd hp (this ▸ h)
    · have ht' : (t == "") = false := by simpa using ht
      simp only [ht', Bool.false_eq_true, if_false, List.mem_toFinset,
        List.mem_filter]
      rw [pyIn_iff]

/-- Witness for C2's amended theorem, at the spec's own example: patterns
`example.com` and `example.com/a` (one a substring of the other) against
the text `see example.com/a/b`. -/
theorem C2_witness :
    Matcher_find_in_aho ["example.com", "example.com/a"]
        "see example.com/a/b" =
      Matcher_find_in_fallback ["example.com", "example.com/a"]
        "see example.com/a/b" ∧
    "example.com" ∈ Matcher_find_in_fallback ["example.com", "example.com/a"]
        "see example.com/a/b" ∧
    "example.com/a" ∈ Matcher_find_in_fallback
        ["example.com", "example.com/a"] "see example.com/a/b" :=
  ⟨(C2_modes_equivalent ["example.com", "example.com/a"]
      "see example.com/a/b" (by decide)).1,
   by decide, by decide⟩

/-! ## Claim C1 -/

/-- Counterexample to C1 as stated: the robots ruleset of `example.com`
failed to load (its `read()` raised; the parser keeps its `__init__`
defaults), the URL is in scope and non-binary, yet `SiteScanner.allowed`
returns `False` — CPython's `can_fetch` answers `False` whenever
`last_checked` is still 0, even for a maximally permissive rule tail. -/
theorem C1_counterexample :
    same_domain "https://example.com/page1" ["example.com"] = true ∧
    is_binary_url "https://example.com/page1" = false ∧
    allowed ["example.com"]
      (fun d => if d == "example.com" then
         some (failedLoadParser (fun _ _ => true)) else none)
      "https://example.com/page1" = false := by
  refine ⟨by decide, by decide, ?_⟩
  decide

/-- Claim C1, amended: if loading the robots ruleset for a domain failed
(the parser is in its failed-load state), then `SiteScanner.allowed`
returns `False` for every URL whose host resolves to that domain — the
fallback is restrictive ("deny"), not permissive. -/
theorem C1_failed_robots_restrictive (domains : List String)
    (rp_by_domain : String → Option RobotFileParser) (url dom : String)
    (p : ParseResult) (v : String → String → Bool)
    (hp : urlparseE url "" = some p)
    (hfind : domains.find? (fun d => pyLower p.netloc == d ||
      pyEndsWith (pyLower p.netloc) ("." ++ d)) = some dom)
    (hdom : dom ≠ "")
    (hrp : rp_by_domain dom = some (failedLoadParser v)) :
    allowed domains rp_by_domain url = false := by
  unfold allowed
  by_cases hsd : same_domain url domains
  · simp only [hsd, Bool.not_true, Bool.false_eq_true, if_false]
    by_cases hbin : is_binary_url url
    · simp [hbin]
    · simp only [hbin, Bool.false_eq_true, if_false]
      rw [hp]
      simp only [hfind]
      have hdom' : (dom == "") = false := by simpa using hdom
      simp [hdom', hrp, can_fetch, failedLoadParser]
  · simp [hsd]

/-! ## Claims C4 and C5: traversal invariants -/

theorem collectPages_card_le (maxPages : Nat) (domains : List String)
    (l : List String) : ∀ pages : Finset String, pages.card < maxPages →
    (collectPages maxPages domains l pages).card ≤ maxPages := by
  induction l with
  | nil =>
    intro pages hp
    unfold collectPages
    omega
  | cons u rest ih =>
    intro pages hp
    unfold collectPages
    by_cases hc : (same_domain u domains && !is_binary_url u) = true
    · simp only [hc, if_true]
      have hcard : (insert (defragOrSelf u) pages).card ≤ pages.card + 1 :=
        Finset.card_insert_le _ _
      by_cases hm : maxPages ≤ (insert (defragOrSelf u) pages).card
      · simp only [hm, if_true]
        omega
      · simp only [hm, if_false]
        exact ih _ (by omega)
    · simp only [hc, Bool.false_eq_true, if_false]
      exact ih pages hp

theorem gatherLoop_inv (fetch : String → Nat × String)
    (fromstring : String → Option XmlElem) (domains : List String)
    (maxPages sitemapCap : Nat) (st : TravState) :
    st.processed_count ≤ sitemapCap →
    st.pages.card ≤ maxPages →
    st.fetched.Nodup →
    (∀ u ∈ st.fetched, u ∈ st.seen_sitemaps) →
    (gatherLoop fetch fromstring domains maxPages sitemapCap
        st).processed_count ≤ sitemapCap ∧
    (gatherLoop fetch fromstring domains maxPages sitemapCap
        st).pages.card ≤ maxPages ∧
    (gatherLoop fetch fromstring domains maxPages sitemapCap
        st).fetched.Nodup ∧
    (∀ u ∈ (gatherLoop fetch fromstring domains maxPages sitemapCap
        st).fetched,
      u ∈ (gatherLoop fetch fromstring domains maxPages sitemapCap
        st).seen_sitemaps) := by
  induction st using gatherLoop.induct fetch fromstring domains maxPages
    sitemapCap
  case case1 x hg smu rest hmem ih =>
    intro h1 h2 h3 h4
    rw [gatherLoop]
    simp only [dif_pos hg, if_pos hmem]
    exact ih h1 h2 h3 h4
  case case2 x hg smu rest hmem seen1 fetched1 res hbad ih =>
    intro h1 h2 h3 h4
    rw [gatherLoop]
    simp only [dif_pos hg, if_neg hmem, if_pos hbad]
    refine ih (Nat.succ_le_of_lt hg.2.2) h2 ?_ ?_
    · refine List.nodup_append.mpr ⟨h3, List.nodup_singleton _, ?_⟩
      intro u hu
      simp only [List.mem_singleton]
      intro he
      exact hmem (he ▸ h4 u hu)
    · intro u hu
      rcases List.mem_append.mp hu with hu | hu
      · exact Finset.mem_insert_of_mem (h4 u hu)
      · simp only [List.mem_singleton] at hu
        exact hu ▸ Finset.mem_insert_self _ _
  case case3 x hg smu rest hmem seen1 fetched1 res hok hnx ih =>
    intro h1 h2 h3 h4
    rw [gatherLoop]
    simp only [dif_pos hg, if_neg hmem, if_neg hok, if_pos hnx]
    refine ih (Nat.succ_le_of_lt hg.2.2) h2 ?_ ?_
    · refine List.nodup_append.mpr ⟨h3, List.nodup_singleton _, ?_⟩
      intro u hu
      simp only [List.mem_singleton]
      intro he
      exact hmem (he ▸ h4 u hu)
    · intro u hu
      rcases List.mem_append.mp hu with hu | hu
      · exact Finset.mem_insert_of_mem (h4 u hu)
      · simp only [List.mem_singleton] at hu
        exact hu ▸ Finset.mem_insert_self _ _
  case case4 x hg smu rest hmem seen1 fetched1 res hok hnx pr worklist pages1 ih =>
    intro h1 h2 h3 h4
    rw [gatherLoop]
    simp only [dif_pos hg, if_neg hmem, if_neg hok, if_neg hnx]
    refine ih (Nat.succ_le_of_lt hg.2.2)
      (collectPages_card_le _ _ _ _ hg.2.1) ?_ ?_
    · refine List.nodup_append.mpr ⟨h3, List.nodup_singleton _, ?_⟩
      intro u hu
      simp only [List.mem_singleton]
      intro he
      exact hmem (he ▸ h4 u hu)
    · intro u hu
      rcases List.mem_append.mp hu with hu | hu
      · exact Finset.mem_insert_of_mem (h4 u hu)
      · simp only [List.mem_singleton] at hu
        exact hu ▸ Finset.mem_insert_self _ _
  case case5 x hg =>
    intro h1 h2 h3 h4
    rw [gatherLoop]
    simp only [dif_neg hg]
    exact ⟨h1, h2, h3, h4⟩

/-- Claim C4: for every initial candidate set and every fetch/parse oracle,
the sitemap traversal never processes more than `sitemapCap` documents and
never collects more than `maxPages` page URLs (the caps are hard limits);
moreover the loop stops immediately — in zero further steps — from any
state that has reached either cap. -/
theorem C4_traversal_caps (fetch : String → Nat × String)
    (fromstring : String → Option XmlElem) (domains : List String)
    (maxPages sitemapCap : Nat) (candidates : List String) :
    (gather_pages_from_sitemaps fetch fromstring domains maxPages sitemapCap
        candidates).processed_count ≤ sitemapCap ∧
    (gather_pages_from_sitemaps fetch fromstring domains maxPages sitemapCap
        candidates).pages.card ≤ maxPages ∧
    (∀ st : TravState,
      sitemapCap ≤ st.processed_count ∨ maxPages ≤ st.pages.card →
      gatherLoop fetch fromstring domains maxPages sitemapCap st = st) := by
  have h := gatherLoop_inv fetch fromstring domains maxPages sitemapCap
    ⟨candidates, ∅, 0, ∅, []⟩ (Nat.zero_le _) (by simp) List.nodup_nil
    (by intro u hu; cases hu)
  refine ⟨h.1, h.2.1, ?_⟩
  intro st hcap
  rw [gatherLoop]
  apply dif_neg
  rintro ⟨-, h2, h3⟩
  rcases hcap with hcap | hcap
  · omega
  · omega

/-- Witness for C4: a concrete zero-cap run collects nothing, and a
concrete state at the document cap is returned unchanged. -/
theorem C4_witness :
    (gather_pages_from_sitemaps (fun _ => (404, "")) (fun _ => none)
        ["example.com"] 0 0 ["https://example.com/s.xml"]).pages.card ≤ 0 ∧
    gatherLoop (fun _ => (404, "")) (fun _ => none) ["example.com"] 5 5
      ⟨["https://example.com/s.xml"], ∅, 5, ∅, []⟩ =
      ⟨["https://example.com/s.xml"], ∅, 5, ∅, []⟩ :=
  ⟨(C4_traversal_caps (fun _ => (404, "")) (fun _ => none) ["example.com"]
      0 0 ["https://example.com/s.xml"]).2.1,
   (C4_traversal_caps (fun _ => (404, "")) (fun _ => none) ["example.com"]
      5 5 []).2.2 ⟨["https://example.com/s.xml"], ∅, 5, ∅, []⟩
      (Or.inl (le_refl 5))⟩

/-- Claim C5: during one traversal run no sitemap URL is fetched and parsed
more than once — the log of fetched URLs has no duplicates, for every
initial candidate list (even one with repetitions) and every oracle. -/
theorem C5_no_duplicate_fetch (fetch : String → Nat × String)
    (fromstring : String → Option XmlElem) (domains : List String)
    (maxPages sitemapCap : Nat) (candidates : List String) :
    (gather_pages_from_sitemaps fetch fromstring domains maxPages sitemapCap
        candidates).fetched.Nodup :=
  (gatherLoop_inv fetch fromstring domains maxPages sitemapCap
    ⟨candidates, ∅, 0, ∅, []⟩ (Nat.zero_le _) (by simp) List.nodup_nil
    (by intro u hu; cases hu)).2.2.1

/-! ## Claim C6 -/

theorem is_sitemap_like_of_conditions (u : String)
    (h : pyIn "sitemap" (pyLower u) = true ∨
         pyEndsWith (pyLower u) ".xml" = true ∨
         pyEndsWith (pyLower u) ".xml.gz" = true ∨
         (∃ p, urlparseE u "" = some p ∧
           ∃ k ∈ parseQsKeys p.query, pyIn "sitemap" (pyLower k) = true)) :
    is_sitemap_like u = true := by
  unfold is_sitemap_like
  dsimp only
  split_ifs with h1 h2
  · rfl
  · rfl
  · rcases h with h | h | h | ⟨p, hp, k, hk, hks⟩
    · exact absurd h h2
    · exact absurd (by simp [h]) h1
    · exact absurd (by simp [h]) h1
    · rw [hp]
      simp only [List.any_eq_true]
      exact ⟨k, hk, hks⟩

theorem classify_fst_mono (locs : List XmlElem) :
    ∀ (acc : List String × List String) (u : String), u ∈ acc.1 →
      u ∈ (locs.foldl classifyStep acc).1 := by
  induction locs with
  | nil => intro acc u hu; exact hu
  | cons l ls ih =>
    intro acc u hu
    apply ih
    unfold classifyStep
    cases l.textOf with
    | none => exact hu
    | some t =>
      by_cases h0 : (t == "") = true
      · simp only [h0, if_true]
        exact hu
      · simp only [h0, Bool.false_eq_true, if_false]
        by_cases hs : is_sitemap_like (pyStrip t) = true
        · simp only [hs, if_true]
          exact List.mem_append_left _ hu
        · simp only [hs, Bool.false_eq_true, if_false]
          exact hu

theorem classify_not_mem_snd (locs : List XmlElem) :
    ∀ (acc : List String × List String) (u : String),
      is_sitemap_like u = true → u ∉ acc.2 →
      u ∉ (locs.foldl classifyStep acc).2 := by
  induction locs with
  | nil => intro acc u _ hu; exact hu
  | cons l ls ih =>
    intro acc u hsm hu
    apply ih _ _ hsm
    unfold classifyStep
    cases l.textOf with
    | none => exact hu
    | some t =>
      by_cases h0 : (t == "") = true
      · simp only [h0, if_true]
        exact hu
      · simp only [h0, Bool.false_eq_true, if_false]
        by_cases hs : is_sitemap_like (pyStrip t) = true
        · simp only [hs, if_true]
          exact hu
        · simp only [hs, Bool.false_eq_true, if_false]
          intro hmem
          rcases List.mem_append.mp hmem with hmem | hmem
          · exact hu hmem
          · simp only [List.mem_singleton] at hmem
            rw [hmem] at hsm
            exact absurd hsm (by simp [hs])

theorem classify_mem_fst (locs : List XmlElem) :
    ∀ (acc : List String × List String) (loc : XmlElem) (t : String),
      loc ∈ locs → loc.textOf = some t → t ≠ "" →
      is_sitemap_like (pyStrip t) = true →
      pyStrip t ∈ (locs.foldl classifyStep acc).1 := by
  induction locs with
  | nil => intro acc loc t hl; cases hl
  | cons l ls ih =>
    intro acc loc t hl ht ht' hsm
    rcases List.mem_cons.mp hl with rfl | hl
    · rw [List.foldl_cons]
      apply classify_fst_mono
      unfold classifyStep
      rw [ht]
      have h0 : (t == "") = false := by simpa using ht'
      simp only [h0, Bool.false_eq_true, if_false, hsm, if_true]
      exact List.mem_append_right _ (List.mem_singleton.mpr rfl)
    · exact ih _ loc t hl ht ht' hsm

/-- Claim C6: in a document whose root local-name is not `sitemapindex`
(treated as a urlset), every `url/loc` value that is sitemap-like — its
lowercased text contains "sitemap" anywhere, or it ends in `.xml` or
`.xml.gz`, or it has a query parameter whose key contains "sitemap" — is
classified by `parse_sitemap_xml` as a nested sitemap URL and never as a
page URL. -/
theorem C6_urlset_reclassification (fromstring : String → Option XmlElem)
    (xml : String) (root : XmlElem)
    (hne : pyStrip xml ≠ "")
    (hroot : fromstring xml = some root)
    (htag : pyLower (rootLocalTag root.tag) ≠ "sitemapindex")
    (loc : XmlElem) (hloc : loc ∈ findallAny root "url" "loc")
    (t : String) (ht : loc.textOf = some t) (ht' : t ≠ "")
    (hsm : pyIn "sitemap" (pyLower (pyStrip t)) = true ∨
           pyEndsWith (pyLower (pyStrip t)) ".xml" = true ∨
           pyEndsWith (pyLower (pyStrip t)) ".xml.gz" = true ∨
           (∃ p, urlparseE (pyStrip t) "" = some p ∧
             ∃ k ∈ parseQsKeys p.query, pyIn "sitemap" (pyLower k) = true)) :
    pyStrip t ∈ (parse_sitemap_xml fromstring xml).1 ∧
    pyStrip t ∉ (parse_sitemap_xml fromstring xml).2 := by
  have hsm' : is_sitemap_like (pyStrip t) = true :=
    is_sitemap_like_of_conditions (pyStrip t) hsm
  unfold parse_sitemap_xml
  have hne' : (pyStrip xml == "") = false := by simpa using hne
  have htag' : (pyLower (rootLocalTag root.tag) == "sitemapindex") = false := by
    simpa using htag
  rw [hne']
  simp only [Bool.false_eq_true, if_false, hroot, htag']
  unfold classifyUrlsetLocs
  exact ⟨classify_mem_fst _ _ loc t hloc ht ht' hsm',
         classify_not_mem_snd _ _ _ hsm' (by simp)⟩

/-- Witness for C6: a concrete urlset document whose single `loc` value
`https://x.com/news-sitemap.xml` is reclassified as a sitemap URL. -/
theorem C6_witness :
    pyStrip "https://x.com/news-sitemap.xml" ∈
      (parse_sitemap_xml
        (fun s => if s == "<urlset-doc>" then
          some (XmlElem.mk "urlset" none
            [XmlElem.mk "url" none
              [XmlElem.mk "loc" (some "https://x.com/news-sitemap.xml") []]])
          else none)
        "<urlset-doc>").1 ∧
    pyStrip "https://x.com/news-sitemap.xml" ∉
      (parse_sitemap_xml
        (fun s => if s == "<urlset-doc>" then
          some (XmlElem.mk "urlset" none
            [XmlElem.mk "url" none
              [XmlElem.mk "loc" (some "https://x.com/news-sitemap.xml") []]])
          else none)
        "<urlset-doc>").2 :=
  C6_urlset_reclassification _ "<urlset-doc>"
    (XmlElem.mk "urlset" none
      [XmlElem.mk "url" none
        [XmlElem.mk "loc" (some "https://x.com/news-sitemap.xml") []]])
    (by decide) rfl (by decide)
    (XmlElem.mk "loc" (some "https://x.com/news-sitemap.xml") [])
    (List.Mem.head _)
    "https://x.com/news-sitemap.xml" rfl (by decide)
    (Or.inl (by decide))

/-- Witness for C1's amended theorem at a concrete in-scope URL. -/
theorem C1_witness :
    allowed ["example.com"]
      (fun d => if d == "example.com" then
         some (failedLoadParser (fun _ _ => true)) else none)
      "https://sub.example.com/other" = false :=
  C1_failed_robots_restrictive ["example.com"] _
    "https://sub.example.com/other" "example.com"
    ⟨"https", "sub.example.com", "/other", "", "", ""⟩ (fun _ _ => true)
    (by decide) (by decide) (by decide) rfl


/-! ## Claim C8 -/

theorem sitemapLineAdd_subset (s : Finset String) (line : String) :
    s ⊆ sitemapLineAdd s line := by
  unfold sitemapLineAdd
  split_ifs with h1
  · cases h : splitOnceChar ':' line with
    | none => exact Finset.Subset.refl s
    | some pr =>
      dsimp only
      split_ifs with h2
      · exact Finset.subset_insert _ s
      · exact Finset.Subset.refl s
  · exact Finset.Subset.refl s

theorem linesFold_subset (lines : List String) :
    ∀ s : Finset String, s ⊆ lines.foldl sitemapLineAdd s := by
  induction lines with
  | nil => intro s; exact Finset.Subset.refl s
  | cons l ls ih =>
    intro s
    exact (sitemapLineAdd_subset s l).trans (ih (sitemapLineAdd s l))

theorem linesFold_mem (lines : List String) :
    ∀ (s : Finset String) (line : String), line ∈ lines →
      pyStartsWith (pyLower line) "sitemap:" = true →
      ∀ pr, splitOnceChar ':' line = some pr → pyStrip pr.2 ≠ "" →
      pyStrip pr.2 ∈ lines.foldl sitemapLineAdd s := by
  induction lines with
  | nil => intro s line hl; cases hl
  | cons l ls ih =>
    intro s line hl hsw pr hpr hne
    rcases List.mem_cons.mp hl with rfl | hl
    · rw [List.foldl_cons]
      apply linesFold_subset
      unfold sitemapLineAdd
      rw [hsw, hpr]
      simp only [if_true]
      have : (pyStrip pr.2 != "") = true := by simpa using hne
      simp only [this, if_true]
      exact Finset.mem_insert_self _ _
    · exact ih _ line hl hsw pr hpr hne

theorem discoverBaseStep_some (fetch : String → Nat × String)
    (su su1 : Finset String) (base : String)
    (h : discoverBaseStep fetch (some su) base = some su1) :
    su ⊆ su1 ∧
    (∀ u, urljoinE base "/sitemap.xml" = some u → u ∈ su1) ∧
    (∀ r, urljoinE base "/robots.txt" = some r → (fetch r).1 = 200 →
      ∀ line ∈ pySplitlines (fetch r).2,
        pyStartsWith (pyLower line) "sitemap:" = true →
        ∀ pr, splitOnceChar ':' line = some pr → pyStrip pr.2 ≠ "" →
        pyStrip pr.2 ∈ su1) := by
  unfold discoverBaseStep at h
  cases hrb : urljoinE base "/robots.txt" with
  | none => rw [hrb] at h; cases h
  | some robots_url =>
    rw [hrb] at h
    simp only at h
    cases hsm : urljoinE base "/sitemap.xml" with
    | none => rw [hsm] at h; cases h
    | some default_url =>
      rw [hsm] at h
      simp only [Option.some.injEq] at h
      subst h
      refine ⟨?_, ?_, ?_⟩
      · refine Finset.Subset.trans ?_ (Finset.subset_insert _ _)
        split_ifs with hc
        · exact linesFold_subset _ su
        · exact Finset.Subset.refl su
      · intro u hu
        cases hu
        exact Finset.mem_insert_self _ _
      · intro r hr h200 line hline hsw pr hpr hne
        cases hr
        apply Finset.mem_insert_of_mem
        have hcond : ((fetch robots_url).1 == 200 &&
            (fetch robots_url).2 != "") = true := by
          have h2 : (fetch robots_url).2 ≠ "" := by
            intro he
            rw [he] at hline
            cases hline
          simp [h200, h2]
        rw [if_pos hcond]
        exact linesFold_mem _ su line hline hsw pr hpr hne

theorem discoverFold_none (fetch : String → Nat × String)
    (bases : List String) :
    bases.foldl (discoverBaseStep fetch) none = none := by
  induction bases with
  | nil => rfl
  | cons b bs ih => exact ih

theorem discoverFold_mem (fetch : String → Nat × String)
    (bases : List String) :
    ∀ (acc S : Finset String),
      bases.foldl (discoverBaseStep fetch) (some acc) = some S →
      acc ⊆ S ∧
      ∀ base ∈ bases,
        (∀ u, urljoinE base "/sitemap.xml" = some u → u ∈ S) ∧
        (∀ r, urljoinE base "/robots.txt" = some r → (fetch r).1 = 200 →
          ∀ line ∈ pySplitlines (fetch r).2,
            pyStartsWith (pyLower line) "sitemap:" = true →
            ∀ pr, splitOnceChar ':' line = some pr → pyStrip pr.2 ≠ "" →
            pyStrip pr.2 ∈ S) := by
  induction bases with
  | nil =>
    intro acc S h
    simp only [List.foldl_nil, Option.some.injEq] at h
    subst h
    exact ⟨Finset.Subset.refl acc, by intro base hb; cases hb⟩
  | cons b bs ih =>
    intro acc S h
    rw [List.foldl_cons] at h
    cases hstep : discoverBaseStep fetch (some acc) b with
    | none =>
      rw [hstep] at h
      rw [discoverFold_none] at h
      cases h
    | some acc1 =>
      rw [hstep] at h
      have hb := discoverBaseStep_some fetch acc acc1 b hstep
      have hrest := ih acc1 S h
      refine ⟨hb.1.trans hrest.1, ?_⟩
      intro base hbase
      rcases List.mem_cons.mp hbase with rfl | hbase
      · exact ⟨fun u hu => hrest.1 (hb.2.1 u hu),
          fun r hr h200 line hline hsw pr hpr hne =>
            hrest.1 (hb.2.2 r hr h200 line hline hsw pr hpr hne)⟩
      · exact hrest.2 base hbase

/-- Claim C8: for every domain and robots.txt behavior of the network, the
discovered set contains the default `/sitemap.xml` URL for every configured
scheme, plus the URL of every robots.txt line whose `Sitemap:` keyword
matches case-insensitively; a non-200 robots.txt response contributes
nothing but the defaults are still present. -/
theorem C8_discover_defaults_and_lines (fetch : String → Nat × String)
    (schemes : List String) (domain : String) (S : Finset String)
    (h : discover_sitemap_urls fetch schemes domain = some S) :
    ∀ scheme ∈ schemes,
      (∀ u, urljoinE (scheme ++ "://" ++ domain) "/sitemap.xml" = some u →
        u ∈ S) ∧
      (∀ r, urljoinE (scheme ++ "://" ++ domain) "/robots.txt" = some r →
        (fetch r).1 = 200 →
        ∀ line ∈ pySplitlines (fetch r).2,
          pyStartsWith (pyLower line) "sitemap:" = true →
          ∀ pr, splitOnceChar ':' line = some pr → pyStrip pr.2 ≠ "" →
          pyStrip pr.2 ∈ S) := by
  intro scheme hs
  have hbase : scheme ++ "://" ++ domain ∈ possible_base_urls schemes domain :=
    List.mem_map.mpr ⟨scheme, hs, rfl⟩
  exact (discoverFold_mem fetch (possible_base_urls schemes domain) ∅ S h).2
    _ hbase

/-- Witness for C8 at a concrete domain and robots.txt response: both the
default candidate and the advertised sitemap URL are discovered. -/
theorem C8_witness :
    "https://example.com/sitemap.xml" ∈
      ({"https://example.com/sitemap.xml", "https://example.com/sm.xml"} :
        Finset String) ∧
    "https://example.com/sm.xml" ∈
      ({"https://example.com/sitemap.xml", "https://example.com/sm.xml"} :
        Finset String) := by
  have h : discover_sitemap_urls
      (fun u => if u == "https://example.com/robots.txt" then
        (200, "User-agent: *\nSitemap: https://example.com/sm.xml")
        else (404, ""))
      ["https"] "example.com" =
      some {"https://example.com/sitemap.xml", "https://example.com/sm.xml"} := by
    decide
  have hg := C8_discover_defaults_and_lines _ ["https"] "example.com" _ h
    "https" (List.mem_singleton.mpr rfl)
  refine ⟨hg.1 _ (by decide), ?_⟩
  have hline :
      "Sitemap: https://example.com/sm.xml" ∈
        pySplitlines "User-agent: *\nSitemap: https://example.com/sm.xml" := by
    decide
  exact hg.2 "https://example.com/robots.txt" (by decide) (by decide)
    _ hline (by decide) ("Sitemap", " https://example.com/sm.xml") (by decide)
    (by decide)



/-! ## Claim C7 -/

theorem normalize_variants_min_length (unescape : String → String)
    (t : String) (V : Finset String) (v : String)
    (hV : normalize_variants unescape t = some V) (hv : v ∈ V) :
    6 ≤ v.length := by
  unfold normalize_variants at hV
  dsimp only at hV
  by_cases h0 : (pyStrip t == "") = true
  · rw [if_pos h0] at hV
    simp only [Option.some.injEq] at hV
    subst hV
    exact absurd hv (Finset.not_mem_empty v)
  · rw [if_neg h0] at hV
    cases hd : urldefragE (unescape (pyStrip t)) with
    | none => rw [hd] at hV; cases hV
    | some pr =>
      rw [hd] at hV
      simp only [Option.some.injEq] at hV
      subst hV
      exact (Finset.mem_filter.mp hv).2

/-- Claim C7: `normalize_variants` on `https://www.example.com/a/b#frag`
(under any `html.unescape` collaborator that is the identity on
ampersand-free strings, which CPython's is) succeeds and contains the
original string, the fragment-stripped form, the no-scheme form and the
no-www form; and for every input, every returned variant has length at
least 6. -/
theorem C7_variant_set (unescape : String → String)
    (h : ∀ s, pyIn "&" s = false → unescape s = s) :
    (normalize_variants unescape
      "https://www.example.com/a/b#frag").isSome = true ∧
    (∀ V, normalize_variants unescape "https://www.example.com/a/b#frag" =
        some V →
      "https://www.example.com/a/b#frag" ∈ V ∧
      "https://www.example.com/a/b" ∈ V ∧
      "www.example.com/a/b" ∈ V ∧
      "example.com/a/b" ∈ V) ∧
    (∀ t V v, normalize_variants unescape t = some V → v ∈ V →
      6 ≤ v.length) := by
  have key : normalize_variants unescape "https://www.example.com/a/b#frag" =
      normalize_variants id "https://www.example.com/a/b#frag" := by
    have hu : unescape (pyStrip "https://www.example.com/a/b#frag") =
        pyStrip "https://www.example.com/a/b#frag" := h _ (by decide)
    unfold normalize_variants
    simp only [hu, id]
  have hmem : (normalize_variants id "https://www.example.com/a/b#frag").any
      (fun f => decide ("https://www.example.com/a/b#frag" ∈ f) &&
        decide ("https://www.example.com/a/b" ∈ f) &&
        decide ("www.example.com/a/b" ∈ f) &&
        decide ("example.com/a/b" ∈ f)) = true := by decide
  refine ⟨?_, ?_, ?_⟩
  · rw [key]
    cases hV : normalize_variants id "https://www.example.com/a/b#frag" with
    | none => rw [hV] at hmem; cases hmem
    | some V => rfl
  · intro V hV
    rw [key] at hV
    rw [hV] at hmem
    simp only [Option.any_some, Bool.and_eq_true, decide_eq_true_eq] at hmem
    exact ⟨hmem.1.1.1, hmem.1.1.2, hmem.1.2, hmem.2⟩
  · exact normalize_variants_min_length unescape

/-- Witness for C7: the required variants are produced at the concrete
input, with `html.unescape` instantiated to the identity. -/
theorem C7_witness :
    "https://www.example.com/a/b#frag" ∈
      (normalize_variants id "https://www.example.com/a/b#frag").getD ∅ ∧
    "https://www.example.com/a/b" ∈
      (normalize_variants id "https://www.example.com/a/b#frag").getD ∅ ∧
    "www.example.com/a/b" ∈
      (normalize_variants id "https://www.example.com/a/b#frag").getD ∅ ∧
    "example.com/a/b" ∈
      (normalize_variants id "https://www.example.com/a/b#frag").getD ∅ := by
  have hthm := C7_variant_set id (fun s _ => rfl)
  cases hV : normalize_variants id "https://www.example.com/a/b#frag" with
  | none =>
    have := hthm.1
    rw [hV] at this
    cases this
  | some V =>
    exact hthm.2.1 V hV

/-! ## Claim C3 -/

theorem result_row_queried (unescape : String → String)
    (matchesMap : String → Finset String) (u : String) (row : ResultRow)
    (h : result_row unescape matchesMap u = some row) :
    row.queried_url = u := by
  unfold result_row at h
  cases hV : normalize_variants unescape u with
  | none => rw [hV] at h; cases h
  | some V =>
    rw [hV] at h
    simp only [Option.some.injEq] at h
    subst h
    rfl

theorem result_row_count (unescape : String → String)
    (matchesMap : String → Finset String) (u : String) (row : ResultRow)
    (V : Finset String)
    (h : result_row unescape matchesMap u = some row)
    (hV : normalize_variants unescape u = some V) :
    row.match_count =
      min MAX_MATCH_PAGES_PER_QUERY (V.biUnion matchesMap).card := by
  unfold result_row at h
  rw [hV] at h
  simp only [Option.some.injEq] at h
  subst h
  show (((V.biUnion matchesMap).sort (· ≤ ·)).take
      MAX_MATCH_PAGES_PER_QUERY).length = _
  rw [List.length_take, Finset.length_sort]

/-- Claim C3, amended: `write_results` emits exactly one data row per input,
in input order (the queried_url column reproduces the input list), and each
row's match_count equals the minimum of the number of distinct pages matched
by any of that input's variants and the per-pattern cap
`MAX_MATCH_PAGES_PER_QUERY` (so it never exceeds the cap, but is the
truncated count when the union across variants exceeds the cap). -/
theorem C3_rows (unescape : String → String) (inputs : List String)
    (matchesMap : String → Finset String) (rows : List ResultRow)
    (h : write_results unescape inputs matchesMap = some rows) :
    rows.map ResultRow.queried_url = inputs ∧
    (∀ r ∈ rows, ∀ V, normalize_variants unescape r.queried_url = some V →
      r.match_count =
        min MAX_MATCH_PAGES_PER_QUERY (V.biUnion matchesMap).card) := by
  induction inputs generalizing rows with
  | nil =>
    unfold write_results at h
    simp only [Option.some.injEq] at h
    subst h
    exact ⟨rfl, by intro r hr; cases hr⟩
  | cons u rest ih =>
    unfold write_results at h
    cases hr : result_row unescape matchesMap u with
    | none => rw [hr] at h; cases h
    | some row =>
      rw [hr] at h
      cases hrest : write_results unescape rest matchesMap with
      | none => rw [hrest] at h; cases h
      | some rs =>
        rw [hrest] at h
        simp only [Option.some.injEq] at h
        subst h
        have hq := result_row_queried _ _ _ _ hr
        obtain ⟨ih1, ih2⟩ := ih rs hrest
        refine ⟨by simp [hq, ih1], ?_⟩
        intro r hrmem V hV
        rcases List.mem_cons.mp hrmem with rfl | hrmem
        · exact result_row_count _ _ _ _ _ hr (hq ▸ hV)
        · exact ih2 r hrmem V hV

/-- Witness for C3's amended theorem at a one-input run with no matches. -/
theorem C3_witness :
    ((write_results id ["abcdef"] (fun _ => ∅)).getD []).map
      ResultRow.queried_url = ["abcdef"] := by
  have hsome : (normalize_variants id "abcdef").isSome = true := by decide
  cases hV : normalize_variants id "abcdef" with
  | none => rw [hV] at hsome; cases hsome
  | some V =>
    cases hr : result_row id (fun _ => ∅) "abcdef" with
    | none =>
      unfold result_row at hr
      rw [hV] at hr
      cases hr
    | some row =>
      have hw : write_results id ["abcdef"] (fun _ => ∅) = some [row] := by
        unfold write_results
        rw [hr]
        rfl
      rw [hw]
      exact (C3_rows id ["abcdef"] (fun _ => ∅) [row] hw).1

/-- The match table of the C3 counterexample: two variants of one input,
each holding at most the per-pattern cap of pages (51 each), overlapping in
exactly one page, so their union has 101 distinct pages. -/
def cexMatchesC3 : String → Finset String :=
  fun p =>
    if p == "www.example.com/x" then
      ((List.range 51).map (fun i => "p" ++ toString i)).toFinset
    else if p == "example.com/x" then
      ((List.range 51).map (fun i => "p" ++ toString (50 + i))).toFinset
    else ∅

set_option maxRecDepth 100000 in
/-- Counterexample to C3 as stated: the input's variants match 101 distinct
pages in total (each single pattern staying within the cap), but the
emitted row reports `match_count = 100` — the count is capped, not equal to
the number of distinct matched pages. -/
theorem C3_counterexample :
    (normalize_variants id "https://www.example.com/x").any
      (fun f => (f.biUnion cexMatchesC3).card == 101) = true ∧
    (write_results id ["https://www.example.com/x"] cexMatchesC3).map
      (fun rows => rows.map ResultRow.match_count) = some [100] := by
  have hany : (normalize_variants id "https://www.example.com/x").any
      (fun f => (f.biUnion cexMatchesC3).card == 101) = true := by decide
  refine ⟨hany, ?_⟩
  cases hV : normalize_variants id "https://www.example.com/x" with
  | none => rw [hV] at hany; cases hany
  | some V =>
    rw [hV] at hany
    simp only [Option.any_some, beq_iff_eq] at hany
    cases hr : result_row id cexMatchesC3 "https://www.example.com/x" with
    | none =>
      unfold result_row at hr
      rw [hV] at hr
      cases hr
    | some row =>
      have hc := result_row_count _ _ _ _ _ hr hV
      rw [hany] at hc
      have hw : write_results id ["https://www.example.com/x"] cexMatchesC3 =
          some [row] := by
        unfold write_results
        rw [hr]
        rfl
      rw [hw]
      show some [row.match_count] = some [100]
      rw [hc]
      decide

end SiteCrawl
